import Mathlib

/-!
Verification development for the LTV unicycle controller
(`wpimath/.../frc/controller/LTVUnicycleController.h`).

The repository provides only the class declaration; the member-function
bodies live in a `.cpp` file that is not part of the sources, so the
operations below are modelled from the specification document.  Numeric
state is modelled with `ℚ` (the C++ code uses `double`); angles are
measured in degrees, so the specification's normalization range `(−π, π]`
becomes `(−180, 180]`.  The 2-D rotation used to express the positional
error in the vehicle's local frame depends on cosine/sine of the current
heading; the geometry primitives are an external collaborator specified
only by interface, so the two trigonometric functions are passed as
explicit parameters `c s : ℚ → ℚ`.
-/

namespace LTV

/-- Modelled from the spec: a pose is a position `(x, y)` and a heading
angle (here in degrees).  The `Pose2d` implementation is not in the
sources. -/
structure Pose2d where
  x : ℚ
  y : ℚ
  theta : ℚ
deriving DecidableEq, Repr

/-- Modelled from the spec: the controller's output, a forward linear
velocity and an angular velocity.  The `ChassisSpeeds` implementation is
not in the sources. -/
structure ChassisSpeeds where
  vx : ℚ
  omega : ℚ
deriving DecidableEq, Repr

/-- A 2×3 feedback gain matrix mapping a 3-element local-frame pose error
to a 2-element velocity correction (spec §3, GainTable entry). -/
structure Gain where
  k11 : ℚ
  k12 : ℚ
  k13 : ℚ
  k21 : ℚ
  k22 : ℚ
  k23 : ℚ
deriving DecidableEq, Repr

/-- Modelled from the spec: angle difference normalization into the
half-open interval `(−180, 180]` degrees (the spec's `(−π, π]`). -/
def wrapAngle (θ : ℚ) : ℚ := θ - 360 * ⌈θ / 360 - 1 / 2⌉

/-- Modelled from the spec: the reference pose expressed relative to the
current pose — the global-frame positional difference rotated into the
current heading's local frame, and the heading difference normalized into
`(−180, 180]`.  `c` and `s` are the cosine and sine supplied by the
out-of-scope geometry collaborator. -/
def relativeTo (c s : ℚ → ℚ) (ref cur : Pose2d) : Pose2d :=
  ⟨c cur.theta * (ref.x - cur.x) + s cur.theta * (ref.y - cur.y),
   -(s cur.theta) * (ref.x - cur.x) + c cur.theta * (ref.y - cur.y),
   wrapAngle (ref.theta - cur.theta)⟩

/-- Elementwise linear interpolation between two gain matrices. -/
def lerpG (K1 K2 : Gain) (t : ℚ) : Gain :=
  ⟨K1.k11 + t * (K2.k11 - K1.k11), K1.k12 + t * (K2.k12 - K1.k12),
   K1.k13 + t * (K2.k13 - K1.k13), K1.k21 + t * (K2.k21 - K1.k21),
   K1.k22 + t * (K2.k22 - K1.k22), K1.k23 + t * (K2.k23 - K1.k23)⟩

/-- Modelled from the spec: locate the bracketing table entries for a
(nonnegative, pre-absolute-value) velocity, clamping to the sampled range
and linearly interpolating the gain matrix elementwise between the
bracketing samples. -/
def lookupInterp : List (ℚ × Gain) → ℚ → Gain
  | [], _ => ⟨0, 0, 0, 0, 0, 0⟩
  | [(_, K)], _ => K
  | (v1, K1) :: (v2, K2) :: rest, w =>
    if w ≤ v1 then K1
    else if w ≤ v2 then lerpG K1 K2 ((w - v1) / (v2 - v1))
    else lookupInterp ((v2, K2) :: rest) w

/-- Modelled from the spec: `GainAt(velocity)` — absolute value of the
signed velocity, then clamped interpolating table lookup. -/
def GainAt (table : List (ℚ × Gain)) (v : ℚ) : Gain :=
  lookupInterp table |v|

/-- Apply a gain matrix to a local-frame pose error, producing the
`(Δv, Δω)` correction. -/
def applyGain (K : Gain) (e : Pose2d) : ℚ × ℚ :=
  (K.k11 * e.x + K.k12 * e.y + K.k13 * e.theta,
   K.k21 * e.x + K.k22 * e.y + K.k23 * e.theta)

/-- The controller's state: the immutable gain table built at
construction, and the mutable fields of the header
(`m_poseError`, `m_poseTolerance`, `m_enabled`). -/
structure ControllerState where
  table : List (ℚ × Gain)
  poseError : Pose2d
  poseTolerance : Pose2d
  enabled : Bool
deriving DecidableEq, Repr

/-- The state of a freshly constructed controller: the header gives the
default member initializer `m_enabled = true`; `m_poseError` and
`m_poseTolerance` are default-constructed poses (all-zero, modelled from
the spec since the `Pose2d` implementation is not in the sources). -/
def initialState (table : List (ℚ × Gain)) : ControllerState :=
  ⟨table, ⟨0, 0, 0⟩, ⟨0, 0, 0⟩, true⟩

/-- `SetEnabled`: toggles correction application; touches nothing else. -/
def SetEnabled (enabled : Bool) (st : ControllerState) : ControllerState :=
  { st with enabled := enabled }

/-- `SetTolerance`: replaces the stored tolerance; touches nothing else. -/
def SetTolerance (poseTolerance : Pose2d) (st : ControllerState) : ControllerState :=
  { st with poseTolerance := poseTolerance }

/-- Modelled from the spec: `AtReference()` is true iff every component of
`lastPoseError` is within the corresponding component of `poseTolerance`
(componentwise absolute-value bound, boundary inclusive per spec §8). -/
def AtReference (st : ControllerState) : Bool :=
  decide (|st.poseError.x| ≤ st.poseTolerance.x) &&
  decide (|st.poseError.y| ≤ st.poseTolerance.y) &&
  decide (|st.poseError.theta| ≤ st.poseTolerance.theta)

/-- Modelled from the spec: the primary `Calculate` operation (§4.2) —
store the local-frame pose error, pass the reference velocities through
unchanged when disabled, otherwise add the correction `K · e` obtained
from the gain table at the reference linear velocity. -/
def Calculate (c s : ℚ → ℚ) (st : ControllerState) (currentPose poseRef : Pose2d)
    (linearVelocityRef angularVelocityRef : ℚ) : ControllerState × ChassisSpeeds :=
  let e := relativeTo c s poseRef currentPose
  let st2 := { st with poseError := e }
  if st.enabled then
    let K := GainAt st.table linearVelocityRef
    let u := applyGain K e
    (st2, ⟨linearVelocityRef + u.1, angularVelocityRef + u.2⟩)
  else
    (st2, ⟨linearVelocityRef, angularVelocityRef⟩)

/-- Modelled from the spec: a trajectory sample carrying the desired pose,
signed linear velocity and curvature (the trajectory representation is an
out-of-scope collaborator; its angular velocity is the product of linear
velocity and curvature). -/
structure TrajectoryState where
  pose : Pose2d
  velocity : ℚ
  curvature : ℚ
deriving DecidableEq, Repr

/-- Modelled from the spec: the convenience overload
`Calculate(currentPose, desiredState)` — unpack the trajectory state and
delegate to the primary operation, preserving the sign of the linear
velocity. -/
def CalculateTraj (c s : ℚ → ℚ) (st : ControllerState) (currentPose : Pose2d)
    (desiredState : TrajectoryState) : ControllerState × ChassisSpeeds :=
  Calculate c s st currentPose desiredState.pose desiredState.velocity
    (desiredState.velocity * desiredState.curvature)

/-- Build the gain table by running the per-velocity Riccati solve on each
sample; any failed solve aborts the whole construction (spec §4.1). -/
def buildTable (riccati : ℚ → Option Gain) : List ℚ → Option (List (ℚ × Gain))
  | [] => some []
  | v :: rest =>
    match riccati v, buildTable riccati rest with
    | some K, some t => some ((v, K) :: t)
    | _, _ => none

/-- Modelled from the spec: the constructor — validate that every cost
weight and the timestep are strictly positive, then build the gain table;
any violation or any non-convergent Riccati solve makes construction fail
(no controller is produced).  The Riccati solver itself is numerical
machinery not in the sources, so it is passed as a function returning
`none` on non-convergence. -/
def makeController (riccati : ℚ → Option Gain) (samples : List ℚ)
    (q1 q2 q3 r1 r2 dt : ℚ) : Option ControllerState :=
  if 0 < q1 ∧ 0 < q2 ∧ 0 < q3 ∧ 0 < r1 ∧ 0 < r2 ∧ 0 < dt then
    (buildTable riccati samples).map initialState
  else
    none

/-- Sortedness of the gain table: strictly increasing sample velocities. -/
def tableSorted : List (ℚ × Gain) → Prop
  | [] => True
  | [_] => True
  | p :: q :: rest => p.1 < q.1 ∧ tableSorted (q :: rest)

/-! ### Basic lemmas about angle normalization -/

theorem wrapAngle_eq (θ : ℚ) (n : ℤ) (h1 : -180 < θ - 360 * (n : ℚ))
    (h2 : θ - 360 * (n : ℚ) ≤ 180) : wrapAngle θ = θ - 360 * (n : ℚ) := by
  have hc : (⌈θ / 360 - 1 / 2⌉ : ℤ) = n := by
    rw [Int.ceil_eq_iff]
    constructor
    · linarith
    · linarith
  unfold wrapAngle
  rw [hc]

theorem wrapAngle_bounds (θ : ℚ) : -180 < wrapAngle θ ∧ wrapAngle θ ≤ 180 := by
  have hle : (θ / 360 - 1 / 2 : ℚ) ≤ (⌈θ / 360 - 1 / 2⌉ : ℤ) := Int.le_ceil _
  have hlt : ((⌈θ / 360 - 1 / 2⌉ : ℤ) : ℚ) < θ / 360 - 1 / 2 + 1 :=
    Int.ceil_lt_add_one _
  unfold wrapAngle
  constructor
  · linarith
  · linarith

theorem wrapAngle_congruence (θ : ℚ) : ∃ k : ℤ, wrapAngle θ = θ - 360 * (k : ℚ) :=
  ⟨⌈θ / 360 - 1 / 2⌉, rfl⟩

theorem wrapAngle_zero : wrapAngle 0 = 0 := by
  have h := wrapAngle_eq 0 0 (by norm_num) (by norm_num)
  simpa using h

theorem relativeTo_self (c s : ℚ → ℚ) (p : Pose2d) : relativeTo c s p p = ⟨0, 0, 0⟩ := by
  simp [relativeTo, wrapAngle_zero]

theorem calculate_fst (c s : ℚ → ℚ) (st : ControllerState) (cur ref : Pose2d)
    (v ω : ℚ) :
    (Calculate c s st cur ref v ω).1 = { st with poseError := relativeTo c s ref cur } := by
  unfold Calculate
  cases hEn : st.enabled <;> simp [hEn]

/-! ### Claim theorems -/

/-- C1: if the current pose equals the reference pose exactly, `Calculate`
returns the reference linear and angular velocities unchanged, for every
gain table and trigonometric collaborator, because the local-frame error
vector is zero and `K · 0 = 0`. -/
theorem calculate_zero_error_passthrough (c s : ℚ → ℚ) (st : ControllerState)
    (p : Pose2d) (v ω : ℚ) :
    (Calculate c s st p p v ω).2 = ⟨v, ω⟩ := by
  unfold Calculate
  cases hEn : st.enabled <;> simp [hEn, relativeTo_self, applyGain]

/-- C2: with the controller disabled via `SetEnabled false`, `Calculate`
returns exactly the reference velocities for all inputs, and still updates
the stored pose error from the current and reference poses. -/
theorem calculate_disabled_passthrough (c s : ℚ → ℚ) (st : ControllerState)
    (cur ref : Pose2d) (v ω : ℚ) :
    (Calculate c s (SetEnabled false st) cur ref v ω).2 = ⟨v, ω⟩ ∧
    (Calculate c s (SetEnabled false st) cur ref v ω).1.poseError = relativeTo c s ref cur := by
  constructor
  · unfold Calculate SetEnabled
    simp
  · rw [calculate_fst]

/-- C3: the heading component of the pose error computed by `Calculate` is
the reference-minus-current heading normalized into `(−180, 180]` degrees
(the spec's `(−π, π]` radians): it lies in that interval and differs from
the raw difference by a multiple of a full turn; in particular a current
heading of `+179°` and a reference heading of `−179°` produce a heading
error of `+2°`, not `−358°`. -/
theorem calculate_heading_error (c s : ℚ → ℚ) (st : ControllerState)
    (cur ref : Pose2d) (v ω : ℚ) :
    (-180 < (Calculate c s st cur ref v ω).1.poseError.theta ∧
      (Calculate c s st cur ref v ω).1.poseError.theta ≤ 180) ∧
    (∃ k : ℤ, (Calculate c s st cur ref v ω).1.poseError.theta =
      ref.theta - cur.theta - 360 * (k : ℚ)) ∧
    (Calculate c s st ⟨0, 0, 179⟩ ⟨0, 0, -179⟩ v ω).1.poseError.theta = 2 := by
  rw [calculate_fst, calculate_fst]
  refine ⟨?_, ?_, ?_⟩
  · exact wrapAngle_bounds _
  · exact wrapAngle_congruence _
  · show wrapAngle ((-179 : ℚ) - 179) = 2
    have h := wrapAngle_eq (-358) (-1) (by norm_num) (by norm_num)
    norm_num at h ⊢
    exact h

/-- C4: `AtReference()` returns true exactly when every component of the
stored pose error is bounded in absolute value by the corresponding
component of the configured tolerance, with the bound inclusive (`≤`): an
error component exactly equal to its tolerance component still yields
true, and any component strictly exceeding its tolerance yields false. -/
theorem atReference_componentwise (st : ControllerState) :
    AtReference st = true ↔
      (|st.poseError.x| ≤ st.poseTolerance.x ∧
       |st.poseError.y| ≤ st.poseTolerance.y ∧
       |st.poseError.theta| ≤ st.poseTolerance.theta) := by
  simp [AtReference, and_assoc]

/-- C6: the gain lookup is symmetric in the sign of the velocity, for
every gain table, because it always looks up the absolute value. -/
theorem gainAt_sign_symmetric (table : List (ℚ × Gain)) (v : ℚ) :
    GainAt table v = GainAt table (-v) := by
  unfold GainAt
  rw [abs_neg]

/-- C8: the only state change `Calculate` makes is to the stored pose
error — the gain table, tolerance and enabled flag are untouched — and the
returned speeds depend only on the inputs, the gain table and the enabled
flag: two controllers agreeing on table and flag produce identical
output. -/
theorem calculate_frame_condition (c s : ℚ → ℚ) (st : ControllerState)
    (cur ref : Pose2d) (v ω : ℚ) :
    (Calculate c s st cur ref v ω).1 = { st with poseError := relativeTo c s ref cur } ∧
    (Calculate c s st cur ref v ω).1.table = st.table ∧
    (Calculate c s st cur ref v ω).1.poseTolerance = st.poseTolerance ∧
    (Calculate c s st cur ref v ω).1.enabled = st.enabled ∧
    ∀ st2 : ControllerState, st2.table = st.table → st2.enabled = st.enabled →
      (Calculate c s st2 cur ref v ω).2 = (Calculate c s st cur ref v ω).2 := by
  refine ⟨calculate_fst c s st cur ref v ω, ?_, ?_, ?_, ?_⟩
  · rw [calculate_fst]
  · rw [calculate_fst]
  · rw [calculate_fst]
  · intro st2 ht he
    unfold Calculate
    rw [ht, he]
    cases hEn : st.enabled <;> simp [hEn]

/-- Witness for C8 at concrete states differing only in pose error and
tolerance. -/
theorem calculate_frame_condition_witness :
    (Calculate (fun _ => 1) (fun _ => 0)
        ⟨[(1, ⟨1, 1, 1, 1, 1, 1⟩)], ⟨9, 9, 9⟩, ⟨5, 5, 5⟩, true⟩ ⟨0, 0, 0⟩ ⟨1, 1, 0⟩ 2 3).2 =
    (Calculate (fun _ => 1) (fun _ => 0)
        ⟨[(1, ⟨1, 1, 1, 1, 1, 1⟩)], ⟨1, 2, 3⟩, ⟨0, 0, 0⟩, true⟩ ⟨0, 0, 0⟩ ⟨1, 1, 0⟩ 2 3).2 :=
  (calculate_frame_condition (fun _ => 1) (fun _ => 0)
      ⟨[(1, ⟨1, 1, 1, 1, 1, 1⟩)], ⟨1, 2, 3⟩, ⟨0, 0, 0⟩, true⟩ ⟨0, 0, 0⟩ ⟨1, 1, 0⟩ 2 3).2.2.2.2
    ⟨[(1, ⟨1, 1, 1, 1, 1, 1⟩)], ⟨9, 9, 9⟩, ⟨5, 5, 5⟩, true⟩ rfl rfl

/-- C9: the trajectory-state overload of `Calculate` returns exactly what
the primary overload returns on the unpacked reference pose, the signed
linear velocity, and the angular velocity derived as linear velocity times
curvature — the sign of the reference linear velocity is passed through
unchanged. -/
theorem calculateTraj_delegates (c s : ℚ → ℚ) (st : ControllerState)
    (cur : Pose2d) (ds : TrajectoryState) :
    CalculateTraj c s st cur ds =
      Calculate c s st cur ds.pose ds.velocity (ds.velocity * ds.curvature) := rfl

/-- C10: a freshly constructed controller is enabled, and its stored pose
error and pose tolerance are both the all-zero pose; the default tolerance
is not a never-satisfied sentinel — with the zero error it already reports
at-reference. -/
theorem initialState_defaults (table : List (ℚ × Gain)) :
    (initialState table).enabled = true ∧
    (initialState table).poseError = ⟨0, 0, 0⟩ ∧
    (initialState table).poseTolerance = ⟨0, 0, 0⟩ ∧
    AtReference (initialState table) = true := by
  refine ⟨rfl, rfl, rfl, ?_⟩
  simp [AtReference, initialState]

/-! ### Lemmas about table construction and lookup -/

theorem buildTable_none_iff (riccati : ℚ → Option Gain) :
    ∀ samples : List ℚ,
      buildTable riccati samples = none ↔ ∃ v ∈ samples, riccati v = none
  | [] => by simp [buildTable]
  | w :: rest => by
    have ih := buildTable_none_iff riccati rest
    constructor
    · intro h
      cases hw : riccati w with
      | none => exact ⟨w, List.mem_cons_self _ _, hw⟩
      | some K =>
        cases hr : buildTable riccati rest with
        | none =>
          obtain ⟨v, hv, hvn⟩ := ih.mp hr
          exact ⟨v, List.mem_cons_of_mem _ hv, hvn⟩
        | some t =>
          rw [buildTable, hw, hr] at h
          exact absurd h (by simp)
    · rintro ⟨v, hv, hvn⟩
      rcases List.mem_cons.mp hv with hveq | hvr
      · subst hveq
        cases hr : buildTable riccati rest <;> simp [buildTable, hvn, hr]
      · have hrest : buildTable riccati rest = none := ih.mpr ⟨v, hvr, hvn⟩
        cases hw : riccati w <;> simp [buildTable, hw, hrest]

theorem tableSorted_tail (p : ℚ × Gain) (rest : List (ℚ × Gain))
    (h : tableSorted (p :: rest)) : tableSorted rest := by
  cases rest with
  | nil => trivial
  | cons q r => exact h.2

theorem sorted_head_le_getLast :
    ∀ (p : ℚ × Gain) (rest : List (ℚ × Gain)), tableSorted (p :: rest) →
      p.1 ≤ ((p :: rest).getLast (List.cons_ne_nil _ _)).1
  | _, [], _ => le_refl _
  | p, q :: r, h => by
    rw [List.getLast_cons (List.cons_ne_nil _ _)]
    exact le_trans (le_of_lt h.1) (sorted_head_le_getLast q r h.2)

theorem lerpG_one (K1 K2 : Gain) : lerpG K1 K2 1 = K2 := by
  cases K2
  simp [lerpG]

theorem lookupInterp_last :
    ∀ (t : List (ℚ × Gain)) (h : t ≠ []) (w : ℚ), tableSorted t →
      (t.getLast h).1 ≤ w → lookupInterp t w = (t.getLast h).2
  | [], h, _, _, _ => absurd rfl h
  | [(_, _)], _, _, _, _ => rfl
  | (v1, K1) :: (v2, K2) :: rest, _, w, hs, hlast => by
    rw [List.getLast_cons (List.cons_ne_nil _ _)] at hlast ⊢
    have hv2last : v2 ≤ (((v2, K2) :: rest).getLast (List.cons_ne_nil _ _)).1 :=
      sorted_head_le_getLast (v2, K2) rest hs.2
    have hw2 : v2 ≤ w := le_trans hv2last hlast
    have hnot1 : ¬ w ≤ v1 := not_le.mpr (lt_of_lt_of_le hs.1 hw2)
    show (if w ≤ v1 then K1
      else if w ≤ v2 then lerpG K1 K2 ((w - v1) / (v2 - v1))
      else lookupInterp ((v2, K2) :: rest) w) = _
    rw [if_neg hnot1]
    by_cases h2 : w ≤ v2
    · have hwv2 : w = v2 := le_antisymm h2 hw2
      cases rest with
      | nil =>
        rw [if_pos h2, hwv2]
        have hne : v2 - v1 ≠ 0 := sub_ne_zero.mpr (ne_of_gt hs.1)
        rw [div_self hne, lerpG_one]
        rfl
      | cons q r =>
        exfalso
        have hq : q.1 ≤ ((q :: r).getLast (List.cons_ne_nil _ _)).1 :=
          sorted_head_le_getLast q r hs.2.2
        rw [List.getLast_cons (List.cons_ne_nil _ _)] at hlast
        have : v2 < v2 :=
          lt_of_lt_of_le hs.2.1 (le_trans hq (le_trans hlast (le_of_eq hwv2)))
        exact lt_irrefl _ this
    · rw [if_neg h2]
      exact lookupInterp_last ((v2, K2) :: rest) (List.cons_ne_nil _ _) w hs.2 hlast

/-- C5: construction fails (produces no controller) whenever any element
of `Q` or `R` is non-positive, `dt` is non-positive, or the Riccati solve
fails to converge for some sampled velocity — and those are exactly the
failure cases, detected at construction and never deferred to runtime. -/
theorem makeController_none_iff (riccati : ℚ → Option Gain) (samples : List ℚ)
    (q1 q2 q3 r1 r2 dt : ℚ) :
    makeController riccati samples q1 q2 q3 r1 r2 dt = none ↔
      (¬(0 < q1 ∧ 0 < q2 ∧ 0 < q3 ∧ 0 < r1 ∧ 0 < r2 ∧ 0 < dt) ∨
        ∃ v ∈ samples, riccati v = none) := by
  unfold makeController
  by_cases hp : 0 < q1 ∧ 0 < q2 ∧ 0 < q3 ∧ 0 < r1 ∧ 0 < r2 ∧ 0 < dt
  · rw [if_pos hp]
    simp [hp, Option.map_eq_none, buildTable_none_iff]
  · rw [if_neg hp]
    simp [hp]

/-- C7: the gain lookup clamps: below the lowest sampled velocity
(including at velocity exactly zero) it returns the lowest sample's gain,
and at or beyond the highest sampled velocity it returns the highest
sample's gain — never extrapolating outside the table. -/
theorem gainAt_clamps (v1 : ℚ) (K1 : Gain) (rest : List (ℚ × Gain)) (v : ℚ)
    (hsorted : tableSorted ((v1, K1) :: rest)) :
    (|v| ≤ v1 → GainAt ((v1, K1) :: rest) v = K1) ∧
    ((((v1, K1) :: rest).getLast (List.cons_ne_nil _ _)).1 ≤ |v| →
      GainAt ((v1, K1) :: rest) v = (((v1, K1) :: rest).getLast (List.cons_ne_nil _ _)).2) ∧
    (0 ≤ v1 → GainAt ((v1, K1) :: rest) 0 = K1) := by
  refine ⟨?_, ?_, ?_⟩
  · intro h
    cases rest with
    | nil => rfl
    | cons q r =>
      show (if |v| ≤ v1 then K1 else _) = K1
      rw [if_pos h]
  · intro h
    exact lookupInterp_last ((v1, K1) :: rest) (List.cons_ne_nil _ _) |v| hsorted h
  · intro h
    cases rest with
    | nil => rfl
    | cons q r =>
      show (if |(0 : ℚ)| ≤ v1 then K1 else _) = K1
      rw [if_pos (by simpa using h)]

/-- Witness for C7 on a concrete two-entry table: velocity `−10` clamps to
the top sample's gain and velocity `0` clamps to the bottom sample's
gain. -/
theorem gainAt_clamps_witness :
    tableSorted [(1, (⟨1, 2, 3, 4, 5, 6⟩ : Gain)), (3, ⟨7, 8, 9, 10, 11, 12⟩)] ∧
    GainAt [(1, (⟨1, 2, 3, 4, 5, 6⟩ : Gain)), (3, ⟨7, 8, 9, 10, 11, 12⟩)] (-10) =
      ⟨7, 8, 9, 10, 11, 12⟩ ∧
    GainAt [(1, (⟨1, 2, 3, 4, 5, 6⟩ : Gain)), (3, ⟨7, 8, 9, 10, 11, 12⟩)] 0 =
      ⟨1, 2, 3, 4, 5, 6⟩ := by
  have hs : tableSorted [(1, (⟨1, 2, 3, 4, 5, 6⟩ : Gain)), (3, ⟨7, 8, 9, 10, 11, 12⟩)] := by
    norm_num [tableSorted]
  have h := gainAt_clamps 1 ⟨1, 2, 3, 4, 5, 6⟩ [(3, ⟨7, 8, 9, 10, 11, 12⟩)] (-10) hs
  refine ⟨hs, ?_, h.2.2 (by norm_num)⟩
  have h2 := h.2.1 (by norm_num)
  simpa using h2

end LTV
